import Mathlib

/-!
Shallow embedding of `src/objdump_to_bindump.cpp` and verification of the
specification's claims about it.  The program reads a file line by line,
classifies each line, and re-encodes the hex instruction-byte field of
instruction lines as binary digit groups.
-/

set_option maxRecDepth 16384

namespace ObjdumpBindump

/-- The character class tested by `isspace` from `<cctype>` in the C locale:
space, tab, newline, vertical tab, form feed, carriage return. -/
def isCSpace (c : Char) : Bool :=
  c.toNat == 32 || c.toNat == 9 || c.toNat == 10 ||
  c.toNat == 11 || c.toNat == 12 || c.toNat == 13

/-- Value produced by `ss << std::hex << hex_part[cur_pos]; ss >> value`:
the numeric value of a hexadecimal digit character; a failed extraction on a
non-hex character stores 0 (C++11 semantics). -/
def hexVal (c : Char) : Nat :=
  if 48 ≤ c.toNat ∧ c.toNat ≤ 57 then c.toNat - 48
  else if 97 ≤ c.toNat ∧ c.toNat ≤ 102 then c.toNat - 97 + 10
  else if 65 ≤ c.toNat ∧ c.toNat ≤ 70 then c.toNat - 65 + 10
  else 0

/-- Hexadecimal digit characters `0`-`9`, `a`-`f`, `A`-`F`. -/
def isHexDig (c : Char) : Bool :=
  (48 ≤ c.toNat && c.toNat ≤ 57) || (97 ≤ c.toNat && c.toNat ≤ 102) ||
  (65 ≤ c.toNat && c.toNat ≤ 70)

/-- The mod-and-divide loop `for(int i=0;i<4;i++){ os << value % 2; value /= 2; }`:
`n` binary digit characters of `v`, least significant first. -/
def lsbBits : Nat → Nat → List Char
  | 0, _ => []
  | n + 1, v => (if v % 2 == 1 then '1' else '0') :: lsbBits n (v / 2)

/-- Conversion of one hex character to four binary digits: the bits are produced
least-significant-first into `os` and the resulting string is reversed
(`std::string(token.rbegin(), token.rend())`) before concatenation. -/
def toBin4 (c : Char) : String :=
  String.mk (lsbBits 4 (hexVal c)).reverse

/-- Conventional most-significant-bit-first binary rendering of `v` in `w` bits;
spec-side definition used to compare against `toBin4`. -/
def msbBin (w v : Nat) : List Char :=
  (List.range w).reverse.map (fun i => if v / 2 ^ i % 2 == 1 then '1' else '0')

/-- One character position of the hex field: the test
`cur_pos < hex_part.size() && !isspace(hex_part[cur_pos])` selects the four
binary digits of the character, otherwise four pad spaces are appended. -/
def convSlot (hex : List Char) (i : Nat) : String :=
  match hex[i]? with
  | some c => if isCSpace c then "    " else toBin4 c
  | none => "    "

/-- The token loop body iterated `n` times: each iteration converts the two
character positions `cur` and `cur + 1` (`for(int tlen = 0; tlen < 2; ...)`),
appends one separator space, and advances `cur_pos` by 3. -/
def renderAux (hex : List Char) : Nat → Nat → String
  | 0, _ => ""
  | n + 1, cur =>
      convSlot hex cur ++ convSlot hex (cur + 1) ++ " " ++ renderAux hex n (cur + 3)

/-- Binary rendering of a byte field: the
`for(int token = 0; token < 7; token++)` loop starting at `cur_pos = 0`. -/
def renderBin (hex : String) : String :=
  renderAux hex.data 7 0

/-- Index of the first tab in the line: `line.find("\t")`, `none` for `npos`. -/
def firstTabIdx (line : String) : Option Nat :=
  line.data.findIdx? (· == '\t')

/-- Index of the first tab at position `start` or later: `line.find("\t", pos)`. -/
def findTabFrom (l : List Char) (start : Nat) : Option Nat :=
  ((l.drop start).findIdx? (· == '\t')).map (· + start)

/-- Line classification, `!(pos == std::string::npos || line[pos-1] != ':')`.
When the first tab sits at index 0 the C++ evaluates `line[pos-1]` with
`pos = 0`, an out-of-bounds access; the total embedding guards that index and
classifies such a line as plain.  `classifyOOB` models the unguarded read. -/
def isInstructionLine (line : String) : Bool :=
  match firstTabIdx line with
  | none => false
  | some 0 => false
  | some (p + 1) => line.data[p]? == some ':'

/-- The classifier with the value produced by the out-of-bounds read
`line[(size_t)0 - 1]` made an explicit parameter `oob`: the classification is
well-defined exactly when it does not depend on `oob`. -/
def classifyOOB (oob : Char) (line : String) : Bool :=
  match firstTabIdx line with
  | none => false
  | some 0 => oob == ':'
  | some (p + 1) => line.data[p]? == some ':'

/-- Processing of one input line: the body of the `while(getline(fin, line))`
loop, returning the text written to stdout for that line.  Plain lines are
echoed (with newline) in full mode and dropped in binary-only mode.  For an
instruction line: `pos` is one past the first tab, `end_pos` is the second tab
or `line.size() - 1`, the hex part is `line.substr(pos, end_pos - pos + 1)`,
and the output is header (full mode), binary rendering, `line.substr(end_pos)`
(full mode), newline. -/
def processLine (full : Bool) (line : String) : String :=
  if isInstructionLine line = false then
    if full then line ++ "\n" else ""
  else
    let l := line.data
    let pos := (firstTabIdx line).getD 0 + 1
    let endPos := (findTabFrom l pos).getD (l.length - 1)
    let hexPart := String.mk ((l.drop pos).take (endPos - pos + 1))
    (if full then String.mk (l.take pos) else "")
      ++ renderBin hexPart
      ++ (if full then String.mk (l.drop endPos) else "")
      ++ "\n"

/-- `std::getline` applied repeatedly to the file contents: each line is the
text up to the next newline (the newline is consumed but not kept); a final
fragment without a newline is still returned as a line; an empty rest yields
no further lines. -/
def getLines : List Char → List (List Char)
  | [] => []
  | c :: rest =>
      if c == '\n' then [] :: getLines rest
      else
        match getLines rest with
        | [] => [[c]]
        | l :: ls => (c :: l) :: ls

/-- Concatenated stdout text of processing a list of lines in order. -/
def processAll (full : Bool) : List (List Char) → String
  | [] => ""
  | line :: rest => processLine full (String.mk line) ++ processAll full rest

/-- Stdout text produced by processing whole file contents. -/
def processContents (full : Bool) (contents : String) : String :=
  processAll full (getLines contents.data)

/-- Spec-side: joining a list of lines back into file text, each line followed
by one newline. -/
def unlines : List (List Char) → String
  | [] => ""
  | l :: ls => String.mk l ++ "\n" ++ unlines ls

/-- Outcome of one run of `process_objdump_file`. -/
structure ProgResult where
  out : String
  err : String
  code : Nat
  deriving DecidableEq, Repr

/-- `process_objdump_file(filename, full_output)`: `contents` is `some` text
when the `ifstream` opens, `none` when it fails to open.  On failure the error
message naming the file goes to `cerr`, nothing is written to stdout, and the
return code (which `main` returns as exit code) is 1. -/
def process_objdump_file (full : Bool) (filename : String)
    (contents : Option String) : ProgResult :=
  match contents with
  | none => ⟨"", "Failed to open " ++ filename ++ " for input.\n", 1⟩
  | some text => ⟨processContents full text, "", 0⟩

/-- The literal help text printed by `usage`. -/
def usageText : String :=
  "Usage: \n" ++
  "     objdump_to_hexdump [-b] objdump_output_file\n" ++
  "      \n" ++
  "     Options: \n" ++
  "         -b      Produce only the binary output (remove other \n" ++
  "                 information from the objdump output)\n" ++
  "         \n" ++
  "     Note:\n" ++
  "         Use with the `-b` flag to strip everything except the binary\n" ++
  "         output.  All other data from the original objdump_output_file\n" ++
  "         is ignored.\n\n\n"

/-- Everything `usage(msg)` writes to stdout.  In the source,
`std::cout << msg << msg != \x22\x22 ? ... : ...` parses as
`((std::cout << msg) << msg) != \x22\x22 ? ... : ...` because `<<` binds
tighter than `!=` and `?:`, so the message is printed twice and the
conditional `\n\n` is discarded; then the help text follows. -/
def usageOut (msg : String) : String :=
  msg ++ msg ++ usageText

/-- Exit code of `usage(msg)`: `exit(msg != \x22\x22 ? 1 : 0)`. -/
def usageCode (msg : String) : Nat :=
  if msg == "" then 0 else 1

/-- Outcome of argument handling in `main`. -/
inductive MainOutcome where
  | usageExit (out : String) (code : Nat)
  | run (filename : String) (fullOutput : Bool)
  deriving DecidableEq, Repr

/-- Argument handling of `main`, on `argv[1..]`: no arguments calls
`usage()`; a leading `-b` selects binary-only mode and consumes one
argument; an unrecognized first argument with extra arguments calls
`usage("Unknown option: " + token)`; a missing filename calls
`usage("Missing objdump_output_file.")`; otherwise the remaining argument is
the filename. -/
def mainArgs (args : List String) : MainOutcome :=
  match args with
  | [] => .usageExit (usageOut "") (usageCode "")
  | tok :: rest =>
      if tok == "-b" then
        match rest with
        | [] =>
            .usageExit (usageOut "Missing objdump_output_file.")
              (usageCode "Missing objdump_output_file.")
        | fn :: _ => .run fn false
      else if rest.length > 0 then
        .usageExit (usageOut ("Unknown option: " ++ tok))
          (usageCode ("Unknown option: " ++ tok))
      else
        .run tok true

/-- Spec-side field extraction: the header is everything up through and
including the first tab. -/
def specHeader (line : String) : String :=
  match firstTabIdx line with
  | some p => String.mk (line.data.take (p + 1))
  | none => line

/-- Spec-side field extraction: the byte field runs from just after the first
tab up to and including the second tab, or to the end of the line when no
second tab exists. -/
def specByteField (line : String) : String :=
  match firstTabIdx line with
  | some p =>
      match findTabFrom line.data (p + 1) with
      | some q => String.mk ((line.data.drop (p + 1)).take (q - p))
      | none => String.mk (line.data.drop (p + 1))
  | none => ""

/-- Spec-side field extraction, amended trailer: everything from the second
tab onward when a second tab exists; otherwise the final character of the
line (the source prints `line.substr(end_pos)` with `end_pos = size_t - 1`). -/
def specTrailer (line : String) : String :=
  match firstTabIdx line with
  | some p =>
      match findTabFrom line.data (p + 1) with
      | some q => String.mk (line.data.drop q)
      | none => String.mk (line.data.drop (line.data.length - 1))
  | none => ""

/-! Helper lemmas -/

@[simp]
lemma data_mk (l : List Char) : (String.mk l).data = l := rfl

@[simp]
lemma data_append (a b : String) : (a ++ b).data = a.data ++ b.data := rfl

lemma str_ext {a b : String} (h : a.data = b.data) : a = b :=
  congrArg String.mk h

lemma length_eq_data (s : String) : s.length = s.data.length := rfl

lemma lsbBits_length : ∀ n v, (lsbBits n v).length = n
  | 0, _ => rfl
  | n + 1, v => by simp [lsbBits, lsbBits_length n (v / 2)]

lemma toBin4_data_length (c : Char) : (toBin4 c).data.length = 4 := by
  simp [toBin4, lsbBits_length]

lemma convSlot_data_length (l : List Char) (i : Nat) :
    (convSlot l i).data.length = 4 := by
  rcases h : l[i]? with _ | c
  · simp only [convSlot, h]
    rfl
  · rcases hs : isCSpace c with _ | _
    · simp only [convSlot, h]
      rw [if_neg (by simp [hs])]
      exact toBin4_data_length c
    · simp only [convSlot, h]
      rw [if_pos hs]
      rfl

lemma renderAux_data_length (l : List Char) :
    ∀ n cur, (renderAux l n cur).data.length = 9 * n
  | 0, _ => rfl
  | n + 1, cur => by
      have h1 := convSlot_data_length l cur
      have h2 := convSlot_data_length l (cur + 1)
      have h3 := renderAux_data_length l n (cur + 3)
      have hsp : (" " : String).data.length = 1 := rfl
      simp only [renderAux, data_append, List.length_append, h1, h2, h3, hsp]
      omega

lemma renderBin_length (s : String) : (renderBin s).length = 63 := by
  rw [length_eq_data, renderBin, renderAux_data_length]

lemma hexVal_lt (c : Char) : hexVal c < 16 := by
  unfold hexVal
  split
  · omega
  · split
    · omega
    · split
      · omega
      · omega

lemma bits_msb : ∀ v < 16, (lsbBits 4 v).reverse = msbBin 4 v := by decide

lemma toBin4_msb (c : Char) : toBin4 c = String.mk (msbBin 4 (hexVal c)) := by
  rw [toBin4, bits_msb (hexVal c) (hexVal_lt c)]

lemma hexDig_not_space (c : Char) (h : isHexDig c = true) : isCSpace c = false := by
  simp only [isHexDig, Bool.or_eq_true, Bool.and_eq_true, decide_eq_true_eq] at h
  simp only [isCSpace, Bool.or_eq_false_iff, beq_eq_false_iff_ne, ne_eq]
  omega

lemma findTabFrom_le (l : List Char) (s q : Nat) (h : findTabFrom l s = some q) :
    s ≤ q := by
  unfold findTabFrom at h
  rcases h' : (l.drop s).findIdx? (· == '\t') with _ | j
  · rw [h'] at h
    simp at h
  · rw [h'] at h
    simp at h
    omega

lemma instr_shape (line : String) (h : isInstructionLine line = true) :
    ∃ p, firstTabIdx line = some (p + 1) ∧ line.data[p]? = some ':' := by
  rcases hft : firstTabIdx line with _ | p
  · simp [isInstructionLine, hft] at h
  · rcases p with _ | p
    · simp [isInstructionLine, hft] at h
    · refine ⟨p, rfl, ?_⟩
      simpa [isInstructionLine, hft] using h

/-! Claim theorems -/

/-- Claim C1, counterexample: the binary rendering of the byte field
`4b 8d 05 6f` is not 35 characters long (it is 63). -/
theorem c1_cex : ¬ ((renderBin "4b 8d 05 6f").length = 35) := by decide

/-- Claim C1, amended: for every instruction line, the binary rendering of the
byte field is exactly 63 characters — 7 groups of two 4-character
binary/space blocks followed by 1 separator space — regardless of how many
hex tokens were present; slot positions beyond the end of the byte field
yield all-space blocks. -/
theorem c1_rendering_width (s : String) (i : Nat) (h : s.data.length ≤ i) :
    (renderBin s).length = 63 ∧ convSlot s.data i = "    " := by
  refine ⟨renderBin_length s, ?_⟩
  have : s.data[i]? = none := by
    rw [List.getElem?_eq_none_iff]
    exact h
  simp [convSlot, this]

/-- Witness for `c1_rendering_width` at the byte field `4b` and slot
position 5. -/
theorem c1_rendering_width_witness :
    ("4b" : String).data.length ≤ 5 ∧
      ((renderBin "4b").length = 63 ∧ convSlot ("4b" : String).data 5 = "    ") :=
  ⟨by decide, c1_rendering_width "4b" 5 (by decide)⟩

/-- Claim C2, counterexample: the second character of a slot is not ignored —
byte fields `4a` and `4b`, which differ only in the second character of the
first slot, produce different renderings. -/
theorem c2_cex : renderBin "4a" ≠ renderBin "4b" := by decide

/-- Claim C2, amended: the transcoder inspects and converts both character
positions of each 2-character slot — a present non-whitespace character
yields its 4-bit binary group — so for byte field `4b 8d 05 6f` the rendering
is `01001011 10001101 00000101 01101111` followed by 27 spaces. -/
theorem c2_both_positions (l : List Char) (i : Nat) (c : Char)
    (hc : l[i]? = some c) (hs : isCSpace c = false) :
    convSlot l i = toBin4 c ∧
      renderBin "4b 8d 05 6f" =
        "01001011 10001101 00000101 01101111 " ++ String.mk (List.replicate 27 ' ') := by
  constructor
  · simp [convSlot, hc, hs]
  · decide

/-- Witness for `c2_both_positions` at the one-character field `4`. -/
theorem c2_both_positions_witness :
    (['4'] : List Char)[0]? = some '4' ∧ isCSpace '4' = false ∧
      (convSlot ['4'] 0 = toBin4 '4' ∧
        renderBin "4b 8d 05 6f" =
          "01001011 10001101 00000101 01101111 " ++ String.mk (List.replicate 27 ' ')) :=
  ⟨by decide, by decide, c2_both_positions ['4'] 0 '4' (by decide) (by decide)⟩

/-- Claim C6: for every hexadecimal-digit slot character, the emitted
4-character group is the conventional most-significant-bit-first binary
representation of the character's 0–15 nibble value (the bits are produced
least-significant-first and reversed); in particular `a` yields `1010`. -/
theorem c6_nibble_msb (c : Char) (h : isHexDig c = true) :
    convSlot [c] 0 = toBin4 c ∧
      toBin4 c = String.mk (msbBin 4 (hexVal c)) ∧ toBin4 'a' = "1010" := by
  refine ⟨?_, toBin4_msb c, by decide⟩
  simp [convSlot, hexDig_not_space c h]

/-- Witness for `c6_nibble_msb` at the hex digit `a`. -/
theorem c6_nibble_msb_witness :
    isHexDig 'a' = true ∧
      (convSlot ['a'] 0 = toBin4 'a' ∧
        toBin4 'a' = String.mk (msbBin 4 (hexVal 'a')) ∧ toBin4 'a' = "1010") :=
  ⟨by decide, c6_nibble_msb 'a' (by decide)⟩

/-- Claim C8: when the input file cannot be opened, the program reports an
error naming the file on the error stream, returns exit code 1, and writes
nothing to standard output. -/
theorem c8_open_failure (full : Bool) (filename : String) :
    process_objdump_file full filename none =
      ⟨"", "Failed to open " ++ filename ++ " for input.\n", 1⟩ := rfl

/-- Claim C10: the classifier's colon test reads `line[pos-1]` with `pos = 0`
whenever the first tab is at index 0 — an out-of-bounds access.  With the
out-of-bounds value made explicit, the classification agrees with the guarded
total embedding whenever the first tab is not at index 0, and genuinely
depends on the out-of-bounds value otherwise. -/
theorem c10_oob_guard (c : Char) (line : String)
    (h : firstTabIdx line ≠ some 0) :
    classifyOOB c line = isInstructionLine line ∧
      classifyOOB ':' "\tx" ≠ classifyOOB ' ' "\tx" := by
  refine ⟨?_, by decide⟩
  match hft : firstTabIdx line with
  | none => simp [classifyOOB, isInstructionLine, hft]
  | some 0 => exact absurd hft h
  | some (p + 1) => simp [classifyOOB, isInstructionLine, hft]

/-- Witness for `c10_oob_guard` at a line whose first tab is at index 2. -/
theorem c10_oob_guard_witness :
    firstTabIdx "a:\tb" ≠ some 0 ∧
      (classifyOOB '?' "a:\tb" = isInstructionLine "a:\tb" ∧
        classifyOOB ':' "\tx" ≠ classifyOOB ' ' "\tx") :=
  ⟨by decide, c10_oob_guard '?' "a:\tb" (by decide)⟩

lemma data_empty : ("" : String).data = [] := rfl

lemma append_ne_empty_of_left (pre tok : String) (h : pre.data.length ≠ 0) :
    pre ++ tok ≠ "" := by
  intro he
  have hd : pre.data ++ tok.data = [] := by
    have hc := congrArg String.data he
    simpa [data_append, data_empty] using hc
  have hp : pre.data = [] := (List.append_eq_nil.mp hd).1
  simp [hp] at h

lemma usageCode_ne (msg : String) (h : msg ≠ "") : usageCode msg = 1 := by
  have hb : (msg == "") = false := beq_eq_false_iff_ne.mpr h
  simp [usageCode, hb]

/-- Claim C3: a line is classified as an instruction line iff it contains a
tab and the character immediately preceding the first tab is a colon.  The
hypothesis excludes lines whose first tab is their first character, where the
reference classifier performs an out-of-bounds read (see claim C10). -/
theorem c3_classifier (line : String) (h : firstTabIdx line ≠ some 0) :
    isInstructionLine line = true ↔
      ∃ p, firstTabIdx line = some p ∧ line.data[p - 1]? = some ':' := by
  rcases hft : firstTabIdx line with _ | p
  · simp [isInstructionLine, hft]
  · rcases p with _ | p
    · exact absurd hft h
    · simp [isInstructionLine, hft]

/-- Witness for `c3_classifier` at a line whose first tab is at index 2. -/
theorem c3_classifier_witness :
    firstTabIdx "a:\tb" ≠ some 0 ∧
      (isInstructionLine "a:\tb" = true ↔
        ∃ p, firstTabIdx "a:\tb" = some p ∧
          ("a:\tb" : String).data[p - 1]? = some ':') :=
  ⟨by decide, c3_classifier "a:\tb" (by decide)⟩

/-- Claim C7: zero arguments print the usage text (empty-message branch) and
exit 0; an unrecognized first argument together with extra arguments, or a
missing filename after `-b`, print usage with a non-empty message and
exit 1. -/
theorem c7_usage_exits (tok : String) (rest : List String)
    (h1 : tok ≠ "-b") (h2 : rest ≠ []) :
    mainArgs [] = .usageExit (usageOut "") 0 ∧
      usageOut "" = usageText ∧
      mainArgs (tok :: rest) =
        .usageExit (usageOut ("Unknown option: " ++ tok)) 1 ∧
      mainArgs ["-b"] = .usageExit (usageOut "Missing objdump_output_file.") 1 := by
  refine ⟨by decide, by decide, ?_, by decide⟩
  have hb : (tok == "-b") = false := beq_eq_false_iff_ne.mpr h1
  have hlen : rest.length > 0 := List.length_pos.mpr h2
  have hne : ("Unknown option: " ++ tok) ≠ "" :=
    append_ne_empty_of_left _ _ (by decide)
  have hcode := usageCode_ne _ hne
  simp [mainArgs, hb, hlen, hcode]

/-- Witness for `c7_usage_exits` with unrecognized option `-x` and one extra
argument. -/
theorem c7_usage_exits_witness :
    ("-x" : String) ≠ "-b" ∧ (["f"] : List String) ≠ [] ∧
      (mainArgs [] = .usageExit (usageOut "") 0 ∧
        usageOut "" = usageText ∧
        mainArgs ["-x", "f"] =
          .usageExit (usageOut ("Unknown option: " ++ "-x")) 1 ∧
        mainArgs ["-b"] =
          .usageExit (usageOut "Missing objdump_output_file.") 1) :=
  ⟨by decide, by decide, c7_usage_exits "-x" ["f"] (by decide) (by decide)⟩

lemma data_nl : ("\n" : String).data = ['\n'] := rfl

lemma toBin4_data_msb (c : Char) : (toBin4 c).data = msbBin 4 (hexVal c) := by
  rw [toBin4_msb]

lemma msbBin_length (w v : Nat) : (msbBin w v).length = w := by
  simp [msbBin]

lemma msb_split : ∀ a < 16, ∀ b < 16,
    msbBin 4 a ++ msbBin 4 b = msbBin 8 (16 * a + b) := by decide

/-- Claim C9: the transcoding loop converts both character positions of each
2-character slot, so the rendering is always exactly 63 characters, and a
full 2-hex-digit token is rendered as the complete 8-bit
most-significant-bit-first binary value of the byte. -/
theorem c9_full_byte (s : String) (c₀ c₁ : Char) (rest : List Char)
    (h₀ : isHexDig c₀ = true) (h₁ : isHexDig c₁ = true) :
    (renderBin s).length = 63 ∧
      (renderBin (String.mk (c₀ :: c₁ :: rest))).data.take 8 =
        msbBin 8 (16 * hexVal c₀ + hexVal c₁) := by
  refine ⟨renderBin_length s, ?_⟩
  have hs₀ := hexDig_not_space c₀ h₀
  have hs₁ := hexDig_not_space c₁ h₁
  have e₀ : convSlot (c₀ :: c₁ :: rest) 0 = toBin4 c₀ := by simp [convSlot, hs₀]
  have e₁ : convSlot (c₀ :: c₁ :: rest) (0 + 1) = toBin4 c₁ := by
    simp [convSlot, hs₁]
  have hr : (renderBin (String.mk (c₀ :: c₁ :: rest))).data =
      (toBin4 c₀).data ++
        ((toBin4 c₁).data ++
          ((" " : String).data ++ (renderAux (c₀ :: c₁ :: rest) 6 (0 + 3)).data)) := by
    show (renderAux (c₀ :: c₁ :: rest) (6 + 1) 0).data = _
    rw [renderAux, e₀, e₁]
    simp [data_append, List.append_assoc]
  rw [hr]
  have l₀ := toBin4_data_length c₀
  have l₁ := toBin4_data_length c₁
  rw [List.take_append_eq_append_take, List.take_of_length_le (by omega), l₀]
  rw [List.take_append_eq_append_take, List.take_of_length_le (by omega), l₁]
  rw [show 8 - 4 - 4 = 0 from rfl, List.take_zero, List.append_nil]
  rw [toBin4_data_msb, toBin4_data_msb]
  exact msb_split _ (hexVal_lt c₀) _ (hexVal_lt c₁)

/-- Witness for `c9_full_byte` at the token `4b`. -/
theorem c9_full_byte_witness :
    isHexDig '4' = true ∧ isHexDig 'b' = true ∧
      ((renderBin "").length = 63 ∧
        (renderBin (String.mk ['4', 'b'])).data.take 8 =
          msbBin 8 (16 * hexVal '4' + hexVal 'b')) :=
  ⟨by decide, by decide, c9_full_byte "" '4' 'b' [] (by decide) (by decide)⟩

lemma getLines_ne_nil (c : Char) (rest : List Char) : getLines (c :: rest) ≠ [] := by
  unfold getLines
  split
  · simp
  · split <;> simp

lemma processLine_plain_full (line : String)
    (h : isInstructionLine line = false) : processLine true line = line ++ "\n" := by
  simp [processLine, h]

lemma processLine_plain_bin (line : String)
    (h : isInstructionLine line = false) : processLine false line = "" := by
  simp [processLine, h]

lemma processAll_plain : ∀ ls : List (List Char),
    (∀ l ∈ ls, isInstructionLine (String.mk l) = false) →
    processAll true ls = unlines ls
  | [], _ => rfl
  | l :: ls, h => by
      have h₁ := h l (by simp)
      have h₂ := processAll_plain ls (fun x hx => h x (by simp [hx]))
      simp [processAll, unlines, processLine_plain_full _ h₁, h₂]

lemma unlines_getLines : ∀ l : List Char, (l = [] ∨ l.getLast? = some '\n') →
    unlines (getLines l) = String.mk l := by
  intro l
  induction l with
  | nil => intro _; exact str_ext rfl
  | cons c rest ih =>
      intro h
      have hlast : (c :: rest).getLast? = some '\n' := by
        rcases h with h | h
        · exact absurd h (by simp)
        · exact h
      by_cases hc : c = '\n'
      · subst hc
        have hg : getLines ('\n' :: rest) = [] :: getLines rest := rfl
        rcases rest with _ | ⟨r, rs⟩
        · apply str_ext
          simp [hg, getLines, unlines, data_append, data_mk, data_empty, data_nl]
        · have h' : (r :: rs).getLast? = some '\n' := by
            rwa [List.getLast?_cons_cons] at hlast
          have ihd := congrArg String.data (ih (Or.inr h'))
          rw [hg]
          apply str_ext
          simp only [unlines, data_append, data_mk, data_empty, data_nl] at ihd ⊢
          simp only [List.nil_append, List.cons_append] at ihd ⊢
          rw [ihd]
      · have hrest : rest ≠ [] := by
          intro he
          subst he
          simp [List.getLast?] at hlast
          exact hc hlast
        obtain ⟨l₀, ls, hg⟩ : ∃ l₀ ls, getLines rest = l₀ :: ls := by
          rcases rest with _ | ⟨r, rs⟩
          · exact absurd rfl hrest
          · rcases hgg : getLines (r :: rs) with _ | ⟨x, xs⟩
            · exact absurd hgg (getLines_ne_nil r rs)
            · exact ⟨x, xs, rfl⟩
        have hb : (c == '\n') = false := beq_eq_false_iff_ne.mpr hc
        have hcons : getLines (c :: rest) = (c :: l₀) :: ls := by
          simp [getLines, hb, hg]
        have hlast' : rest.getLast? = some '\n' := by
          rcases rest with _ | ⟨r, rs⟩
          · exact absurd rfl hrest
          · rwa [List.getLast?_cons_cons] at hlast
        have ihd := congrArg String.data (ih (Or.inr hlast'))
        rw [hg] at ihd
        rw [hcons]
        apply str_ext
        simp only [unlines, data_append, data_mk, data_empty, data_nl] at ihd ⊢
        simp only [List.nil_append, List.cons_append] at ihd ⊢
        rw [ihd]

/-- Claim C5: a plain line is reproduced byte-for-byte with a trailing newline
in full-output mode and produces nothing in binary-only mode; a file
consisting solely of complete (newline-terminated) plain lines is reproduced
identically by full-output mode. -/
theorem c5_plain_passthrough (line contents : String)
    (h1 : isInstructionLine line = false)
    (h2 : ∀ l ∈ getLines contents.data, isInstructionLine (String.mk l) = false)
    (h3 : contents.data = [] ∨ contents.data.getLast? = some '\n') :
    processLine true line = line ++ "\n" ∧ processLine false line = "" ∧
      processContents true contents = contents := by
  refine ⟨processLine_plain_full line h1, processLine_plain_bin line h1, ?_⟩
  rw [processContents, processAll_plain _ h2, unlines_getLines _ h3]

/-- Witness for `c5_plain_passthrough` on the two-line all-plain file
`ab\ncd\n`. -/
theorem c5_plain_passthrough_witness :
    isInstructionLine "hello" = false ∧
      (∀ l ∈ getLines ("ab\ncd\n" : String).data,
        isInstructionLine (String.mk l) = false) ∧
      (("ab\ncd\n" : String).data = [] ∨
        ("ab\ncd\n" : String).data.getLast? = some '\n') ∧
      (processLine true "hello" = "hello" ++ "\n" ∧
        processLine false "hello" = "" ∧
        processContents true "ab\ncd\n" = "ab\ncd\n") :=
  ⟨by decide, by decide, by decide,
    c5_plain_passthrough "hello" "ab\ncd\n" (by decide) (by decide) (by decide)⟩

/-- Claim C4, counterexample: on the continuation line `8:<tab>b8 10`
(no second tab) the full-mode output is not header, rendering, empty trailer,
newline — the program re-emits the line's final character after the
rendering. -/
theorem c4_cex :
    processLine true "8:\tb8 10" ≠ "8:\t" ++ renderBin "b8 10" ++ "" ++ "\n" := by
  decide

/-- Claim C4, amended: for every instruction line in full-output mode the
output is Header (through the first tab), the Binary Rendering of the byte
field (from just after the first tab through the second tab inclusive, or to
the end of the line when no second tab exists), the Trailer, and a newline —
where the Trailer is everything from the second tab onward when a second tab
exists and is the final character of the line otherwise (the program prints
`line.substr(end_pos)` with `end_pos = line.size() - 1`). -/
theorem c4_assembly (line : String) (h : isInstructionLine line = true) :
    processLine true line =
      specHeader line ++ renderBin (specByteField line) ++ specTrailer line ++ "\n" := by
  obtain ⟨p, hft, _⟩ := instr_shape line h
  rcases hq : findTabFrom line.data (p + 1 + 1) with _ | q
  · have htake : (line.data.drop (p + 1 + 1)).take
        (line.length - 1 - (p + 1 + 1) + 1) = line.data.drop (p + 1 + 1) := by
      apply List.take_of_length_le
      rw [List.length_drop, ← length_eq_data]
      omega
    simp [processLine, h, hft, hq, specHeader, specByteField, specTrailer, htake]
  · have hle : p + 1 + 1 ≤ q := findTabFrom_le _ _ _ hq
    have harith : q - (p + 1 + 1) + 1 = q - (p + 1) := by omega
    simp [processLine, h, hft, hq, specHeader, specByteField, specTrailer, harith]

/-- Witness for `c4_assembly` at an instruction line with a second tab. -/
theorem c4_assembly_witness :
    isInstructionLine " 804913c:\tb8 10 90 04 08 \tmov" = true ∧
      processLine true " 804913c:\tb8 10 90 04 08 \tmov" =
        specHeader " 804913c:\tb8 10 90 04 08 \tmov" ++
          renderBin (specByteField " 804913c:\tb8 10 90 04 08 \tmov") ++
          specTrailer " 804913c:\tb8 10 90 04 08 \tmov" ++ "\n" :=
  ⟨by decide, c4_assembly _ (by decide)⟩

end ObjdumpBindump
